import Mathlib

/-!
# Consul discovery of the Thanos SD sidecar

A shallow embedding of `pkg/discovery/consul/consul.go`: the configuration and
the `Discovery` record, `NewDiscovery`, `parseServiceNodes` and one iteration of
the polling loop of `Discovery.Run`.

Modelling conventions.

* A Go `map[string]T` is a list of its entries in the order in which the
  `range` loop visits them.  Go leaves that order unspecified, so a list stands
  for one possible visit; the keys of a map are pairwise distinct, which is a
  hypothesis (`Nodup`) wherever a theorem needs it.
* A Go `nil` map or slice and an empty one are both the empty list.
* Network calls are answers supplied by the environment: the outcome of an
  HTTP request is a value of `Except`, the body of a response is a `Body`, and
  the capability probe is an oracle.
* Logging, sleeping and the ticker are left out: they do not touch the data.
-/

namespace Consul

/-! ## Library functions used by the source -/

/-- The label set of the Prometheus data model, `model.LabelSet`: a map from label
names to label values, kept as the list of its entries. -/
abbrev LabelSet := List (String × String)

/-- Assignment `ls[k] = v` on a label set: an earlier entry for `k` is replaced. -/
def LabelSet.set (ls : LabelSet) (k v : String) : LabelSet :=
  (k, v) :: ls.filter (fun e => e.1 != k)

/-- Lookup `ls[k]` on a label set. -/
def LabelSet.get? (ls : LabelSet) (k : String) : Option String :=
  List.lookup k ls

/-- The target group of Prometheus, `targetgroup.Group`. -/
structure Group where
  Targets : List LabelSet
  Labels : LabelSet
  Source : String
deriving DecidableEq, Repr

/-- The constant `model.MetaLabelPrefix`. -/
def MetaLabelPrefix : String := "__meta_"

/-- The constant `model.AddressLabel`. -/
def AddressLabel : String := "__address__"

/-- The library function `strutil.SanitizeLabelName`: every character outside
`[a-zA-Z0-9_]` is replaced by an underscore. -/
def SanitizeLabelName (name : String) : String :=
  String.mk (name.toList.map (fun c => if c.isAlphanum || c == '_' then c else '_'))

/-- The library function `net.JoinHostPort`: a host that contains a colon is put in
square brackets. -/
def JoinHostPort (host port : String) : String :=
  if host.toList.any (fun c => c == ':') then "[" ++ host ++ "]:" ++ port
  else host ++ ":" ++ port

/-- Decimal rendering of a Go `int`, as `fmt.Sprintf("%d", n)` and `strconv.Itoa n`
both produce it. -/
def Itoa (n : Int) : String := toString n

/-- The library function `strings.Join`. -/
def Join (elems : List String) (sep : String) : String := String.intercalate sep elems

/-! ## Labels of the source -/

def addressLabel : String := MetaLabelPrefix ++ "consul_address"
def nodeLabel : String := MetaLabelPrefix ++ "consul_node"
def tagsLabel : String := MetaLabelPrefix ++ "consul_tags"
def serviceAddressLabel : String := MetaLabelPrefix ++ "consul_service_address"
def servicePortLabel : String := MetaLabelPrefix ++ "consul_service_port"
def serviceIDLabel : String := MetaLabelPrefix ++ "consul_service_id"

/-! ## Data model -/

/-- One record of the answer to a `/v1/catalog/service/<name>` request. -/
structure CatalogService where
  ID : String := ""
  Node : String := ""
  Address : String := ""
  Datacenter : String := ""
  TaggedAddresses : List (String × String) := []
  NodeMeta : List (String × String) := []
  ServiceID : String := ""
  ServiceName : String := ""
  ServiceAddress : String := ""
  ServiceTags : List String := []
  ServicePort : Int := 0
  ServiceEnableTagOverride : Bool := false
  CreateIndex : Nat := 0
  ModifyIndex : Nat := 0
deriving DecidableEq, Repr

/-- The configuration block `consul_sd_config`. A field left out of the YAML
document decodes to the zero value of its type. -/
structure ConsulSDConfig where
  Address : String := ""
  TagSeparator : String := ""
  RefreshInterval : Int := 0
deriving DecidableEq, Repr

/-- The discoverer. The logger is left out. `oldSourceList` is a `map[string]bool`
whose entries all hold `true`; it is kept as the list of its keys. -/
structure Discovery where
  address : String
  refreshInterval : Int
  tagSeparator : String
  oldSourceList : List String
deriving DecidableEq, Repr

/-- The body of an HTTP response as the code consumes it: reading it may fail,
decoding what was read may fail, or a value of the expected type comes out. -/
inductive Body (α : Type) where
  | unreadable (err : String)
  | malformed (err : String)
  | decoded (value : α)

/-- The two results `(bool, error)` of `checkIfStore`. -/
abbrev ProbeResult := Bool × Option String

/-- The test after the probe, `!ok || err != nil`, negated: the instance is kept. -/
def confirmedBy (r : ProbeResult) : Bool := !(!r.1 || r.2.isSome)

/-! ## parseServiceNodes -/

/-- Lines 149-151: the tag string of an instance. -/
def tagsOf (node : CatalogService) : String :=
  "," ++ Join node.ServiceTags "," ++ ","

/-- Lines 153-160: the address of an instance. -/
def addrOf (node : CatalogService) : String :=
  if node.ServiceAddress != "" then
    JoinHostPort node.ServiceAddress (Itoa node.ServicePort)
  else
    JoinHostPort node.Address (Itoa node.ServicePort)

/-- Line 167: the target of an instance. -/
def targetOf (node : CatalogService) : LabelSet :=
  [(AddressLabel, addrOf node)]

/-- Lines 168-176: the label literal of an instance. -/
def fixedLabelsOf (node : CatalogService) : LabelSet :=
  [ (AddressLabel, addrOf node),
    (addressLabel, node.Address),
    (nodeLabel, node.Node),
    (tagsLabel, tagsOf node),
    (serviceAddressLabel, node.ServiceAddress),
    (servicePortLabel, Itoa node.ServicePort),
    (serviceIDLabel, node.ServiceID) ]

/-- The label written for the node metadata key `k` (line 181-182). -/
def metaLabelOf (k : String) : String := MetaLabelPrefix ++ SanitizeLabelName k

/-- Lines 168-183: the labels of the group after an instance was kept; the node
metadata is written over the label literal, entry by entry. -/
def labelsOf (node : CatalogService) : LabelSet :=
  node.NodeMeta.foldl (fun ls kv => LabelSet.set ls (metaLabelOf kv.1) kv.2) (fixedLabelsOf node)

/-- The loop of lines 148-185. `checkIfStore i addr` is the answer of the probe to
the call made for the instance at position `i` of the decoded list. -/
def parseServiceNodesLoop (checkIfStore : Nat → String → ProbeResult) :
    Nat → List CatalogService → Group → Group
  | _, [], tgroup => tgroup
  | i, node :: rest, tgroup =>
    let addr := addrOf node
    let r := checkIfStore i addr
    if !r.1 || r.2.isSome then
      parseServiceNodesLoop checkIfStore (i + 1) rest tgroup
    else
      parseServiceNodesLoop checkIfStore (i + 1) rest
        { tgroup with Labels := labelsOf node, Targets := tgroup.Targets ++ [targetOf node] }

/-- The method `Discovery.parseServiceNodes`; the result is the Go pair of a group
pointer and an error. The receiver is passed although the body reads none of
its data fields. -/
def parseServiceNodes (_d : Discovery) (checkIfStore : Nat → String → ProbeResult)
    (resp : Body (List CatalogService)) (name : String) : Option Group × Option String :=
  let tgroup : Group := { Source := name, Labels := [], Targets := [] }
  match resp with
  | .unreadable err => (none, some err)
  | .malformed err => (some tgroup, some err)
  | .decoded nodes =>
    let tgroup := parseServiceNodesLoop checkIfStore 0 nodes tgroup
    if tgroup.Targets.length == 0 then (none, none)
    else (some tgroup, none)

/-! ## Run and NewDiscovery -/

/-- What the environment answers during one iteration of the loop of `Run`.
`getService name` answers the request for the instances of `name`, and
`checkIfStore name i addr` the probe made for instance `i` of service `name`. -/
structure Poll where
  getServices : Except String (Body (List (String × List String)))
  getService : String → Except String (Body (List CatalogService))
  checkIfStore : String → Nat → String → ProbeResult

/-- Assignment `m[key] = true` on a `map[string]bool` kept as its list of keys. -/
def setTrue (m : List String) (key : String) : List String :=
  if m.contains key then m else m ++ [key]

/-- The loop of lines 241-263 over the names of the services list. The error
variable of the loop body is local to it; a `break` ends the loop with what was
collected so far. -/
def servicesLoop (d : Discovery) (p : Poll) :
    List String → List Group → List String → List Group × List String
  | [], tgs, newSourceList => (tgs, newSourceList)
  | name :: rest, tgs, newSourceList =>
    if name == "consul" then servicesLoop d p rest tgs newSourceList
    else
      match p.getService name with
      | .error _ => (tgs, newSourceList)
      | .ok resp =>
        match parseServiceNodes d (p.checkIfStore name) resp name with
        | (_, some _) => (tgs, newSourceList)
        | (some tg, none) => servicesLoop d p rest (tgs ++ [tg]) (setTrue newSourceList tg.Source)
        | (none, none) => servicesLoop d p rest tgs newSourceList

/-- The loop of lines 265-271 over the keys of `oldSourceList`. -/
def tombstonesLoop (newSourceList : List String) : List String → List Group → List Group
  | [], tgs => tgs
  | key :: rest, tgs =>
    if !newSourceList.contains key then
      tombstonesLoop newSourceList rest (tgs ++ [{ Source := key, Labels := [], Targets := [] }])
    else
      tombstonesLoop newSourceList rest tgs

/-- One iteration of the loop of `Run`, lines 202-276: the discoverer after the
iteration and the batch sent on the channel, if one is sent. `err` is the error
variable declared at line 205, which the test of line 273 reads. -/
def runIteration (d : Discovery) (p : Poll) : Discovery × Option (List Group) :=
  match p.getServices with
  | .error _ => (d, none)
  | .ok (.unreadable _) => (d, none)
  | .ok (.malformed _) => (d, none)
  | .ok (.decoded srvs) =>
    let err : Option String := none
    let (tgs, newSourceList) := servicesLoop d p (srvs.map Prod.fst) [] []
    let tgs := tombstonesLoop newSourceList d.oldSourceList tgs
    let d := { d with oldSourceList := newSourceList }
    if err.isNone then (d, some tgs) else (d, none)

/-- The loop of `Run` over a finite sequence of polls: the discoverer at the end and
the batches sent, oldest first. -/
def runPolls (d : Discovery) : List Poll → Discovery × List (List Group)
  | [] => (d, [])
  | p :: rest =>
    let r := runIteration d p
    let rs := runPolls r.1 rest
    match r.2 with
    | some batch => (rs.1, batch :: rs.2)
    | none => (rs.1, rs.2)

/-- The constructor `NewDiscovery`; the result is the Go pair of a pointer and an
error, an error being `Except.error`. -/
def NewDiscovery (conf : ConsulSDConfig) : Except String Discovery :=
  .ok { address := conf.Address,
        refreshInterval := conf.RefreshInterval,
        tagSeparator := conf.TagSeparator,
        oldSourceList := [] }

/-! ## Vocabulary of the statements -/

/-- The instances of a decoded list that the probe confirms, from position `i` on, in
the order of the list; an instance that occurs twice is kept twice. -/
def confirmedFrom (checkIfStore : Nat → String → ProbeResult) (i : Nat)
    (nodes : List CatalogService) : List CatalogService :=
  ((nodes.enumFrom i).filter (fun e => confirmedBy (checkIfStore e.1 (addrOf e.2)))).map Prod.snd

/-- The capability-confirmed instances of a decoded list. -/
def confirmedInstances (checkIfStore : Nat → String → ProbeResult)
    (nodes : List CatalogService) : List CatalogService :=
  confirmedFrom checkIfStore 0 nodes

/-! ## Vocabulary of the statements about Run -/

/-- The services list of the poll is decoded, and so is the answer for every name
of it that the loop asks for. -/
def Poll.succeeds (p : Poll) : Prop :=
  ∃ srvs, p.getServices = .ok (.decoded srvs) ∧
    ∀ name ∈ srvs.map Prod.fst, name ≠ "consul" →
      ∃ nodes, p.getService name = .ok (.decoded nodes)

/-- The capability-confirmed instances that a poll holds for a service name: those of
the decoded answer for the name when the services list holds the name, and
none otherwise. -/
def Poll.confirmedOf (p : Poll) (name : String) : List CatalogService :=
  match p.getServices with
  | .ok (.decoded srvs) =>
    if (srvs.map Prod.fst).contains name then
      match p.getService name with
      | .ok (.decoded nodes) => confirmedInstances (p.checkIfStore name) nodes
      | _ => []
    else []
  | _ => []

/-- The group sent for a source that disappeared, line 267. -/
def tombstone (key : String) : Group := { Source := key, Labels := [], Targets := [] }

/-! ## Concrete inputs -/

/-- A discoverer that published `svc-b` before. -/
def discoveryA : Discovery :=
  { address := "127.0.0.1:8500", refreshInterval := 30, tagSeparator := ",",
    oldSourceList := ["svc-b"] }

/-- An instance of `svc-a` with two tags. -/
def nodeA : CatalogService :=
  { Node := "node-1", Address := "10.0.0.1", ServiceID := "store-1", ServiceName := "svc-a",
    ServicePort := 9090, ServiceTags := ["a", "b"] }

/-- A second instance of `svc-a`, on another node. -/
def nodeB : CatalogService :=
  { Node := "node-2", Address := "10.0.0.2", ServiceID := "store-2", ServiceName := "svc-a",
    ServicePort := 9091, ServiceTags := ["c"] }

/-- The instance `nodeA` with node metadata: the first key is written to the label of
the node name, the other two are written to one label. -/
def nodeM : CatalogService :=
  { nodeA with NodeMeta := [("consul_node", "x"), ("a-b", "1"), ("a.b", "2")] }

/-- The instance `nodeA` with node metadata that collides with nothing. -/
def nodeR : CatalogService :=
  { nodeA with NodeMeta := [("rack", "r1"), ("zone-id", "z2")] }

/-- An instance registered on an IPv6 node address with no service port. -/
def nodeV6 : CatalogService :=
  { Node := "node-6", Address := "::1", ServiceID := "store-6", ServiceName := "svc-a" }

/-- A probe that confirms every endpoint. -/
def probeAll : Nat → String → ProbeResult := fun _ _ => (true, none)

/-- A probe that confirms the first instance of a list only. -/
def probeFirst : Nat → String → ProbeResult :=
  fun i _ => if i == 0 then (true, none) else (false, some "connection refused")

/-- A poll that lists `consul` and `svc-a`; the one instance of `svc-a` is confirmed. -/
def pollA : Poll :=
  { getServices := .ok (.decoded [("consul", []), ("svc-a", ["a", "b"])]),
    getService := fun name => if name == "svc-a" then .ok (.decoded [nodeA]) else .ok (.decoded []),
    checkIfStore := fun _ => probeAll }

/-- A poll whose services list holds `consul` only. -/
def pollGone : Poll :=
  { getServices := .ok (.decoded [("consul", [])]),
    getService := fun _ => .ok (.decoded []),
    checkIfStore := fun _ => probeAll }

/-- A poll that lists `svc-a` and `svc-b`, visited in that order; the request for the
instances of `svc-a` times out, and `svc-b` has a confirmed instance. -/
def pollFail : Poll :=
  { getServices := .ok (.decoded [("svc-a", []), ("svc-b", [])]),
    getService := fun name =>
      if name == "svc-a" then .error "timeout" else .ok (.decoded [nodeB]),
    checkIfStore := fun _ => probeAll }


/-! ## Label sets -/

theorem LabelSet.get?_set_self (ls : LabelSet) (k v : String) :
    (ls.set k v).get? k = some v := by
  simp [LabelSet.set, LabelSet.get?, List.lookup]

theorem lookup_filter_ne (ls : LabelSet) (k k' : String) (h : k' ≠ k) :
    List.lookup k' (ls.filter (fun e => e.1 != k)) = List.lookup k' ls := by
  induction ls with
  | nil => rfl
  | cons e rest ih =>
    obtain ⟨a, b⟩ := e
    by_cases hak : a = k
    · subst hak
      have hne : (k' == a) = false := by simpa using h
      simp [List.filter, List.lookup, hne, ih]
    · have hf : (a != k) = true := by simpa using hak
      by_cases hk : k' = a
      · subst hk
        simp [List.filter_cons, hf, List.lookup]
      · have hne : (k' == a) = false := by simpa using hk
        simp [List.filter_cons, hf, List.lookup, hne, ih]

theorem LabelSet.get?_set_ne (ls : LabelSet) (k k' v : String) (h : k' ≠ k) :
    (ls.set k v).get? k' = ls.get? k' := by
  have hne : (k' == k) = false := by simpa using h
  simp only [LabelSet.set, LabelSet.get?, List.lookup, hne]
  exact lookup_filter_ne ls k k' h

/-- Writing node metadata leaves a label alone that no metadata key is written to. -/
theorem foldl_set_get?_of_not_written (meta : List (String × String)) (ls : LabelSet)
    (l : String) (h : ∀ kv ∈ meta, metaLabelOf kv.1 ≠ l) :
    (meta.foldl (fun ls kv => LabelSet.set ls (metaLabelOf kv.1) kv.2) ls).get? l = ls.get? l := by
  induction meta generalizing ls with
  | nil => rfl
  | cons kv rest ih =>
    rw [List.foldl_cons, ih _ (fun kv' hkv' => h kv' (List.mem_cons_of_mem _ hkv'))]
    exact LabelSet.get?_set_ne ls _ _ _ (fun e => h kv (List.mem_cons_self _ _) e.symm)

/-- A label that is set before the node metadata is written is set afterwards. -/
theorem foldl_set_get?_isSome (meta : List (String × String)) (ls : LabelSet)
    (l : String) (h : (ls.get? l).isSome) :
    ((meta.foldl (fun ls kv => LabelSet.set ls (metaLabelOf kv.1) kv.2) ls).get? l).isSome := by
  induction meta generalizing ls with
  | nil => exact h
  | cons kv rest ih =>
    rw [List.foldl_cons]
    apply ih
    by_cases hk : l = metaLabelOf kv.1
    · rw [hk, LabelSet.get?_set_self]; rfl
    · rw [LabelSet.get?_set_ne _ _ _ _ hk]; exact h

/-- After the node metadata is written, the label of a key holds the value of a key
that is written to the same label; it holds `v` when all of these hold `v`. -/
theorem foldl_set_get?_of_written (meta : List (String × String)) (ls : LabelSet)
    (k v : String) (hmem : (k, v) ∈ meta)
    (hsame : ∀ kv ∈ meta, metaLabelOf kv.1 = metaLabelOf k → kv.2 = v) :
    (meta.foldl (fun ls kv => LabelSet.set ls (metaLabelOf kv.1) kv.2) ls).get? (metaLabelOf k)
      = some v := by
  induction meta using List.reverseRecOn generalizing ls with
  | nil => cases hmem
  | append_singleton rest kv ih =>
    rw [List.foldl_append, List.foldl_cons, List.foldl_nil]
    by_cases hk : metaLabelOf kv.1 = metaLabelOf k
    · rw [hk, LabelSet.get?_set_self, hsame kv (by simp) hk]
    · rw [LabelSet.get?_set_ne _ _ _ _ (fun e => hk e.symm)]
      apply ih
      · rcases List.mem_append.mp hmem with h | h
        · exact h
        · simp only [List.mem_singleton] at h
          subst h
          exact absurd rfl hk
      · intro kv' hkv' he
        exact hsame kv' (List.mem_append_left _ hkv') he

/-- After the node metadata is written, the label of every key of it is set. -/
theorem foldl_set_get?_isSome_of_written (meta : List (String × String)) (ls : LabelSet)
    (k v : String) (hmem : (k, v) ∈ meta) :
    ((meta.foldl (fun ls kv => LabelSet.set ls (metaLabelOf kv.1) kv.2) ls).get?
      (metaLabelOf k)).isSome := by
  induction meta generalizing ls with
  | nil => cases hmem
  | cons kv rest ih =>
    rw [List.foldl_cons]
    rcases List.mem_cons.mp hmem with h | h
    · apply foldl_set_get?_isSome
      rw [← h, LabelSet.get?_set_self]; rfl
    · exact ih _ h

/-! ## The loop of parseServiceNodes -/

theorem confirmedFrom_nil (c : Nat → String → ProbeResult) (i : Nat) :
    confirmedFrom c i [] = [] := rfl

theorem confirmedFrom_cons (c : Nat → String → ProbeResult) (i : Nat) (node : CatalogService)
    (rest : List CatalogService) :
    confirmedFrom c i (node :: rest) =
      if confirmedBy (c i (addrOf node)) then node :: confirmedFrom c (i + 1) rest
      else confirmedFrom c (i + 1) rest := by
  unfold confirmedFrom
  rw [List.enumFrom_cons]
  by_cases h : confirmedBy (c i (addrOf node)) = true <;> simp [List.filter_cons, h]

theorem confirmedFrom_sublist (c : Nat → String → ProbeResult) (i : Nat)
    (nodes : List CatalogService) : (confirmedFrom c i nodes).Sublist nodes := by
  induction nodes generalizing i with
  | nil => exact List.Sublist.slnil
  | cons node rest ih =>
    rw [confirmedFrom_cons]
    split
    · exact (ih (i + 1)).cons₂ node
    · exact (ih (i + 1)).cons node

/-- What the loop of `parseServiceNodes` leaves in the group. -/
theorem parseServiceNodesLoop_eq (c : Nat → String → ProbeResult) (i : Nat)
    (nodes : List CatalogService) (tg : Group) :
    parseServiceNodesLoop c i nodes tg =
      { Source := tg.Source,
        Targets := tg.Targets ++ (confirmedFrom c i nodes).map targetOf,
        Labels := match (confirmedFrom c i nodes).getLast? with
          | none => tg.Labels
          | some node => labelsOf node } := by
  induction nodes generalizing i tg with
  | nil => simp [parseServiceNodesLoop, confirmedFrom_nil]
  | cons node rest ih =>
    rw [parseServiceNodesLoop, confirmedFrom_cons]
    have hr : (!(c i (addrOf node)).1 || (c i (addrOf node)).2.isSome)
        = !confirmedBy (c i (addrOf node)) := by simp [confirmedBy]
    simp only [hr]
    cases h : confirmedBy (c i (addrOf node))
    · simp only [Bool.not_false, if_true, Bool.false_eq_true, if_false]
      rw [ih]
    · simp only [Bool.not_true, Bool.false_eq_true, if_false, if_true]
      rw [ih]
      cases hc : confirmedFrom c (i + 1) rest with
      | nil => simp
      | cons a l =>
        rw [List.getLast?_eq_getLast _ (List.cons_ne_nil a l),
          List.getLast?_eq_getLast _ (List.cons_ne_nil node (a :: l))]
        simp [List.getLast_cons]


/-- The result of `parseServiceNodes` on a decoded list of instances. -/
theorem parseServiceNodes_decoded_eq (d : Discovery) (c : Nat → String → ProbeResult)
    (nodes : List CatalogService) (name : String) :
    parseServiceNodes d c (.decoded nodes) name =
      match (confirmedInstances c nodes).getLast? with
      | none => (none, none)
      | some node =>
        (some { Source := name,
                Targets := (confirmedInstances c nodes).map targetOf,
                Labels := labelsOf node }, none) := by
  unfold parseServiceNodes confirmedInstances
  simp only [parseServiceNodesLoop_eq, List.nil_append]
  cases hc : confirmedFrom c 0 nodes with
  | nil => simp
  | cons a l =>
    rw [List.getLast?_eq_getLast _ (List.cons_ne_nil a l)]
    simp

/-- A group that comes without an error stems from a decoded list that holds a
confirmed instance; it bears the name of the service and has a target. -/
theorem parseServiceNodes_some_none (d : Discovery) (c : Nat → String → ProbeResult)
    (resp : Body (List CatalogService)) (name : String) (g : Group)
    (h : parseServiceNodes d c resp name = (some g, none)) :
    g.Source = name ∧ g.Targets ≠ [] ∧
      ∃ nodes, resp = .decoded nodes ∧ confirmedInstances c nodes ≠ [] ∧
        g.Targets = (confirmedInstances c nodes).map targetOf := by
  cases resp with
  | unreadable err => simp [parseServiceNodes] at h
  | malformed err => simp [parseServiceNodes] at h
  | decoded nodes =>
    rw [parseServiceNodes_decoded_eq] at h
    cases hc : confirmedInstances c nodes with
    | nil => rw [hc] at h; simp at h
    | cons a l =>
      rw [hc, List.getLast?_eq_getLast _ (List.cons_ne_nil a l)] at h
      simp only [Prod.mk.injEq, Option.some.injEq, and_true] at h
      subst h
      exact ⟨rfl, by simp, nodes, rfl, by simp [hc], by simp [hc]⟩

/-! ## The source list -/

theorem mem_setTrue (m : List String) (key x : String) :
    x ∈ setTrue m key ↔ x ∈ m ∨ x = key := by
  unfold setTrue
  by_cases h : m.contains key = true
  · rw [if_pos h]
    constructor
    · exact Or.inl
    · rintro (h' | h')
      · exact h'
      · subst h'; simpa using h
  · rw [if_neg h]; simp

theorem nodup_setTrue (m : List String) (key : String) (h : m.Nodup) : (setTrue m key).Nodup := by
  unfold setTrue
  by_cases hc : m.contains key = true
  · rw [if_pos hc]; exact h
  · rw [if_neg hc]
    have hk : key ∉ m := by simpa using hc
    exact List.Nodup.append h (List.nodup_singleton key) (by simpa using hk)

theorem mem_foldl_setTrue (R : List Group) (m : List String) (x : String) :
    x ∈ R.foldl (fun m g => setTrue m g.Source) m ↔ x ∈ m ∨ x ∈ R.map Group.Source := by
  induction R generalizing m with
  | nil => simp
  | cons g rest ih =>
    rw [List.foldl_cons, ih, mem_setTrue]
    simp only [List.map_cons, List.mem_cons]
    tauto

theorem nodup_foldl_setTrue (R : List Group) (m : List String) (h : m.Nodup) :
    (R.foldl (fun m g => setTrue m g.Source) m).Nodup := by
  induction R generalizing m with
  | nil => exact h
  | cons g rest ih => exact ih _ (nodup_setTrue m g.Source h)

/-! ## The loops of Run -/

/-- What the loop over the services list adds: groups `R` in the order of the names
they stem from, each the answer of `parseServiceNodes` for a name other than
`consul`, and their sources in the new source list. -/
theorem servicesLoop_spec (d : Discovery) (p : Poll) (names : List String) (tgs : List Group)
    (newSourceList : List String) :
    ∃ R : List Group,
      servicesLoop d p names tgs newSourceList =
        (tgs ++ R, R.foldl (fun m g => setTrue m g.Source) newSourceList) ∧
      (R.map Group.Source).Sublist names ∧
      ∀ g ∈ R, g.Source ≠ "consul" ∧ ∃ resp, p.getService g.Source = .ok resp ∧
        parseServiceNodes d (p.checkIfStore g.Source) resp g.Source = (some g, none) := by
  induction names generalizing tgs newSourceList with
  | nil => exact ⟨[], by simp [servicesLoop], by simp, by simp⟩
  | cons name rest ih =>
    rw [servicesLoop]
    by_cases hc : (name == "consul") = true
    · rw [if_pos hc]
      obtain ⟨R, h1, h2, h3⟩ := ih tgs newSourceList
      exact ⟨R, h1, h2.cons name, h3⟩
    · rw [if_neg hc]
      have hname : name ≠ "consul" := by simpa using hc
      cases hget : p.getService name with
      | error e => exact ⟨[], by simp, by simp, by simp⟩
      | ok resp =>
        simp only
        rcases hparse : parseServiceNodes d (p.checkIfStore name) resp name with ⟨og, oe⟩
        cases oe with
        | some e => exact ⟨[], by simp, by simp, by simp⟩
        | none =>
          cases og with
          | none =>
            obtain ⟨R, h1, h2, h3⟩ := ih tgs newSourceList
            exact ⟨R, h1, h2.cons name, h3⟩
          | some tg =>
            have hsrc : tg.Source = name := (parseServiceNodes_some_none d _ resp name tg hparse).1
            obtain ⟨R, h1, h2, h3⟩ := ih (tgs ++ [tg]) (setTrue newSourceList tg.Source)
            refine ⟨tg :: R, ?_, ?_, ?_⟩
            · simp only [h1, List.append_assoc, List.singleton_append, List.foldl_cons]
            · rw [List.map_cons, hsrc]; exact h2.cons₂ name
            · intro g hg
              rcases List.mem_cons.mp hg with h | h
              · subst h
                rw [hsrc]
                exact ⟨hname, resp, hget, hparse⟩
              · exact h3 g h

theorem tombstonesLoop_eq (newSourceList old : List String) (tgs : List Group) :
    tombstonesLoop newSourceList old tgs =
      tgs ++ (old.filter (fun key => !newSourceList.contains key)).map
        tombstone := by
  induction old generalizing tgs with
  | nil => simp [tombstonesLoop]
  | cons key rest ih =>
    rw [tombstonesLoop]
    by_cases h : (!newSourceList.contains key) = true
    · rw [if_pos h, ih]
      have hk : key ∉ newSourceList := by simpa using h
      simp [List.filter_cons, hk, tombstone]
    · rw [if_neg h, ih]
      have hk : key ∈ newSourceList := by simpa using h
      simp [List.filter_cons, hk]

/-- One iteration whose services list is decoded: the batch is sent; it holds the
groups `R` of the services and then a tombstone for every old source that is
not a source of `R`, and the sources of `R` are the new source list. -/
theorem runIteration_decoded (d : Discovery) (p : Poll) (srvs : List (String × List String))
    (hs : p.getServices = .ok (.decoded srvs)) :
    ∃ R : List Group,
      runIteration d p =
        ({ d with oldSourceList := R.foldl (fun m g => setTrue m g.Source) [] },
         some (R ++ (d.oldSourceList.filter
            (fun key => !(R.foldl (fun m g => setTrue m g.Source) []).contains key)).map
              tombstone)) ∧
      (R.map Group.Source).Sublist (srvs.map Prod.fst) ∧
      ∀ g ∈ R, g.Source ≠ "consul" ∧ ∃ resp, p.getService g.Source = .ok resp ∧
        parseServiceNodes d (p.checkIfStore g.Source) resp g.Source = (some g, none) := by
  obtain ⟨R, h1, h2, h3⟩ := servicesLoop_spec d p (srvs.map Prod.fst) [] []
  refine ⟨R, ?_, h2, h3⟩
  unfold runIteration
  rw [hs]
  simp only [h1, tombstonesLoop_eq, List.nil_append, Option.isNone_none, if_true]


/-! ## One iteration of Run -/

/-- The facts about one iteration whose services list is decoded, in the form the
statements below use them. -/
theorem runIteration_batch (d : Discovery) (p : Poll) (srvs : List (String × List String))
    (hs : p.getServices = .ok (.decoded srvs)) :
    ∃ (R : List Group) (newSourceList : List String),
      runIteration d p = ({ d with oldSourceList := newSourceList },
        some (R ++ (d.oldSourceList.filter (fun key => !newSourceList.contains key)).map tombstone)) ∧
      newSourceList.Nodup ∧
      (∀ x, x ∈ newSourceList ↔ x ∈ R.map Group.Source) ∧
      (R.map Group.Source).Sublist (srvs.map Prod.fst) ∧
      ∀ g ∈ R, g.Source ≠ "consul" ∧ g.Targets ≠ [] ∧ p.confirmedOf g.Source ≠ [] := by
  obtain ⟨R, h1, h2, h3⟩ := runIteration_decoded d p srvs hs
  refine ⟨R, R.foldl (fun m g => setTrue m g.Source) [], h1, ?_, ?_, h2, ?_⟩
  · exact nodup_foldl_setTrue R [] List.nodup_nil
  · intro x; rw [mem_foldl_setTrue]; simp
  · intro g hg
    obtain ⟨hc, resp, hget, hparse⟩ := h3 g hg
    obtain ⟨_, ht, nodes, hresp, hne, _⟩ := parseServiceNodes_some_none d _ resp _ g hparse
    refine ⟨hc, ht, ?_⟩
    have hmem : g.Source ∈ srvs.map Prod.fst := h2.subset (List.mem_map_of_mem _ hg)
    have hcont : (srvs.map Prod.fst).contains g.Source = true := by simpa using hmem
    unfold Poll.confirmedOf
    rw [hs]
    simp only [hcont, if_true, hget, hresp]
    exact hne

theorem filter_beq_of_nodup (l : List String) (s : String) (hl : l.Nodup) (hs : s ∈ l) :
    l.filter (fun x => x == s) = [s] := by
  induction l with
  | nil => cases hs
  | cons a rest ih =>
    rw [List.nodup_cons] at hl
    by_cases ha : a = s
    · subst ha
      have hnone : rest.filter (fun x => x == a) = [] := by
        rw [List.filter_eq_nil_iff]
        intro x hx hxa
        have : x = a := by simpa using hxa
        exact hl.1 (this ▸ hx)
      simp [List.filter_cons, hnone]
    · have hs' : s ∈ rest := by
        rcases List.mem_cons.mp hs with h | h
        · exact absurd h.symm ha
        · exact h
      have hb : (a == s) = false := by simpa using ha
      simp [List.filter_cons, hb, ih hl.2 hs']


/-! ## parseServiceNodes: targets, labels, endpoint -/

/-- Claim C4. On a decoded list of instances `parseServiceNodes` returns no error; it
returns no group exactly when the probe confirms no instance, and otherwise a
group whose source is the service name and whose targets are, for the
confirmed instances in the order of the list (an instance is kept as often as
it occurs), the label set that holds only the address label with the endpoint
of the instance. -/
theorem parseServiceNodes_targets (d : Discovery) (checkIfStore : Nat → String → ProbeResult)
    (nodes : List CatalogService) (name : String) :
    (parseServiceNodes d checkIfStore (.decoded nodes) name).2 = none ∧
    ((parseServiceNodes d checkIfStore (.decoded nodes) name).1 = none ↔
      confirmedInstances checkIfStore nodes = []) ∧
    (parseServiceNodes d checkIfStore (.decoded nodes) name).1.map
        (fun g => (g.Source, g.Targets)) =
      (if (confirmedInstances checkIfStore nodes).isEmpty then none
       else some (name, (confirmedInstances checkIfStore nodes).map
          (fun node => [(AddressLabel, addrOf node)]))) ∧
    (confirmedInstances checkIfStore nodes).Sublist nodes := by
  rw [parseServiceNodes_decoded_eq]
  refine ⟨?_, ?_, ?_, confirmedFrom_sublist _ _ _⟩
  all_goals
    cases hc : confirmedInstances checkIfStore nodes with
    | nil => simp
    | cons a l =>
      simp [List.getLast?_eq_getLast _ (List.cons_ne_nil a l), targetOf]

theorem metaLabelOf_ne_AddressLabel (k : String) : metaLabelOf k ≠ AddressLabel := by
  intro h
  have h' := congrArg String.data h
  simp [metaLabelOf, MetaLabelPrefix, AddressLabel, String.data_append] at h'

/-- The labels of an instance: the address label, the six fixed labels and the
labels of the node metadata. -/
theorem labelsOf_get? (node : CatalogService) :
    (labelsOf node).get? AddressLabel = some (addrOf node) ∧
    (∀ lv ∈ fixedLabelsOf node, ((labelsOf node).get? lv.1).isSome ∧
      ((∀ kv ∈ node.NodeMeta, metaLabelOf kv.1 ≠ lv.1) → (labelsOf node).get? lv.1 = some lv.2)) ∧
    (∀ k v, (k, v) ∈ node.NodeMeta → ((labelsOf node).get? (metaLabelOf k)).isSome ∧
      ((∀ kv ∈ node.NodeMeta, metaLabelOf kv.1 = metaLabelOf k → kv.2 = v) →
        (labelsOf node).get? (metaLabelOf k) = some v)) := by
  have hfixed : ∀ lv ∈ fixedLabelsOf node, (fixedLabelsOf node).get? lv.1 = some lv.2 := by
    intro lv hlv
    simp only [fixedLabelsOf, List.mem_cons, List.mem_singleton, List.not_mem_nil, or_false] at hlv
    rcases hlv with h | h | h | h | h | h | h <;> subst h <;>
      simp [fixedLabelsOf, LabelSet.get?, List.lookup, AddressLabel, addressLabel, nodeLabel,
        tagsLabel, serviceAddressLabel, servicePortLabel, serviceIDLabel, MetaLabelPrefix]
  refine ⟨?_, ?_, ?_⟩
  · unfold labelsOf
    rw [foldl_set_get?_of_not_written _ _ _ (fun kv _ => metaLabelOf_ne_AddressLabel kv.1)]
    exact hfixed (AddressLabel, addrOf node) (by simp [fixedLabelsOf])
  · intro lv hlv
    constructor
    · unfold labelsOf
      apply foldl_set_get?_isSome
      rw [hfixed lv hlv]; rfl
    · intro h
      unfold labelsOf
      rw [foldl_set_get?_of_not_written _ _ _ h]
      exact hfixed lv hlv
  · intro k v hkv
    constructor
    · exact foldl_set_get?_isSome_of_written _ _ k v hkv
    · intro h
      exact foldl_set_get?_of_written _ _ k v hkv h


/-- Claim C5, as stated, fails. First input: of two instances the probe confirms the
first only, and the labels of the group are those of the first, not of the
last of the list. Second input: one confirmed instance whose node metadata
holds the key `consul_node` and the keys `a-b` and `a.b`; the label of the
node name holds the value of the first key, and the label of `a-b` holds the
value of `a.b`. -/
theorem group_labels_last_instance_counterexample :
    ¬ (∀ g, (parseServiceNodes discoveryA probeFirst (.decoded [nodeA, nodeB]) "svc-a").1 = some g →
        ∀ last, [nodeA, nodeB].getLast? = some last →
          g.Labels.get? nodeLabel = some last.Node) ∧
    ¬ (∀ g, (parseServiceNodes discoveryA probeAll (.decoded [nodeM]) "svc-a").1 = some g →
        ∀ last, [nodeM].getLast? = some last →
          g.Labels.get? nodeLabel = some last.Node) ∧
    ¬ (∀ g, (parseServiceNodes discoveryA probeAll (.decoded [nodeM]) "svc-a").1 = some g →
        ∀ last, [nodeM].getLast? = some last →
          ∀ k v, (k, v) ∈ last.NodeMeta → g.Labels.get? (metaLabelOf k) = some v) := by
  refine ⟨fun h => ?_, fun h => ?_, fun h => ?_⟩
  · exact absurd (h _ rfl nodeB rfl) (by decide)
  · exact absurd (h _ rfl nodeM rfl) (by decide)
  · exact absurd (h _ rfl nodeM rfl "a-b" "1" (by decide)) (by decide)

/-- Claim C5, amended. A group that `parseServiceNodes` returns for a decoded list
carries the labels of the last capability-confirmed instance of the list: the
address label holds its endpoint; each of the six fixed meta-labels is set,
and holds the node address, node name, tag string, service address, decimal
service port and service id of that instance when no node metadata key of the
instance is written to that label; for every node metadata key of the instance
the label of the key is set, and holds the value of the key when every key of
the instance that is written to the same label has that value. -/
theorem group_labels_last_confirmed (d : Discovery) (checkIfStore : Nat → String → ProbeResult)
    (nodes : List CatalogService) (name : String) (g : Group)
    (h : (parseServiceNodes d checkIfStore (.decoded nodes) name).1 = some g) :
    ∃ node, (confirmedInstances checkIfStore nodes).getLast? = some node ∧
      g.Labels.get? AddressLabel = some (addrOf node) ∧
      (∀ lv ∈ [(addressLabel, node.Address), (nodeLabel, node.Node), (tagsLabel, tagsOf node),
            (serviceAddressLabel, node.ServiceAddress),
            (servicePortLabel, Itoa node.ServicePort), (serviceIDLabel, node.ServiceID)],
        (g.Labels.get? lv.1).isSome ∧
        ((∀ kv ∈ node.NodeMeta, MetaLabelPrefix ++ SanitizeLabelName kv.1 ≠ lv.1) →
          g.Labels.get? lv.1 = some lv.2)) ∧
      (∀ k v, (k, v) ∈ node.NodeMeta →
        (g.Labels.get? (MetaLabelPrefix ++ SanitizeLabelName k)).isSome ∧
        ((∀ kv ∈ node.NodeMeta,
            SanitizeLabelName kv.1 = SanitizeLabelName k → kv.2 = v) →
          g.Labels.get? (MetaLabelPrefix ++ SanitizeLabelName k) = some v)) := by
  rw [parseServiceNodes_decoded_eq] at h
  cases hc : (confirmedInstances checkIfStore nodes).getLast? with
  | none => rw [hc] at h; simp at h
  | some node =>
    rw [hc] at h
    simp only [Option.some.injEq] at h
    subst h
    obtain ⟨h1, h2, h3⟩ := labelsOf_get? node
    refine ⟨node, rfl, h1, ?_, ?_⟩
    · intro lv hlv
      exact h2 lv (by
        simp only [fixedLabelsOf, List.mem_cons] at hlv ⊢
        exact Or.inr hlv)
    · intro k v hkv
      refine ⟨(h3 k v hkv).1, fun hsame => (h3 k v hkv).2 ?_⟩
      intro kv hkv' he
      apply hsame kv hkv'
      have he' := congrArg String.data he
      simp only [metaLabelOf, String.data_append, List.append_cancel_left_eq] at he'
      exact String.ext he'

/-- Claim C5, amended, at a concrete input: two instances, the first with node
metadata, confirmed by a probe that confirms the first instance only. -/
theorem group_labels_last_confirmed_witness :
    ∃ g, (parseServiceNodes discoveryA probeFirst (.decoded [nodeR, nodeB]) "svc-a").1 = some g ∧
      ∃ node, (confirmedInstances probeFirst [nodeR, nodeB]).getLast? = some node ∧
      g.Labels.get? AddressLabel = some (addrOf node) ∧
      (∀ lv ∈ [(addressLabel, node.Address), (nodeLabel, node.Node), (tagsLabel, tagsOf node),
            (serviceAddressLabel, node.ServiceAddress),
            (servicePortLabel, Itoa node.ServicePort), (serviceIDLabel, node.ServiceID)],
        (g.Labels.get? lv.1).isSome ∧
        ((∀ kv ∈ node.NodeMeta, MetaLabelPrefix ++ SanitizeLabelName kv.1 ≠ lv.1) →
          g.Labels.get? lv.1 = some lv.2)) ∧
      (∀ k v, (k, v) ∈ node.NodeMeta →
        (g.Labels.get? (MetaLabelPrefix ++ SanitizeLabelName k)).isSome ∧
        ((∀ kv ∈ node.NodeMeta,
            SanitizeLabelName kv.1 = SanitizeLabelName k → kv.2 = v) →
          g.Labels.get? (MetaLabelPrefix ++ SanitizeLabelName k) = some v)) :=
  ⟨_, rfl, group_labels_last_confirmed discoveryA probeFirst [nodeR, nodeB] "svc-a" _ rfl⟩

/-- Claim C6, as stated, fails: an instance on the node address `::1` with service
port 0 resolves to `[::1]:0`, which is not the host followed by `:0`. -/
theorem endpoint_port_zero_counterexample :
    ¬ (∀ node : CatalogService, node.ServicePort = 0 →
        addrOf node =
          (if node.ServiceAddress = "" then node.Address else node.ServiceAddress) ++ ":0") := by
  intro h
  exact absurd (h nodeV6 rfl) (by decide)

/-- Claim C6, amended. The endpoint of an instance is the join, by `net.JoinHostPort`,
of the host and the decimal service port, the host being the service address
when that is not empty and the node address otherwise; with service port 0 it
is the host followed by `:0` when the host holds no colon, and the host in
square brackets followed by `:0` when it does. Every instance has an endpoint:
`parseServiceNodes` probes it and, when the probe confirms it, makes it the
target of the instance. -/
theorem endpoint_resolution (d : Discovery) (checkIfStore : Nat → String → ProbeResult)
    (node : CatalogService) (name : String) :
    addrOf node =
      JoinHostPort (if node.ServiceAddress = "" then node.Address else node.ServiceAddress)
        (Itoa node.ServicePort) ∧
    addrOf { node with ServicePort := 0 } =
      (if (if node.ServiceAddress = "" then node.Address else node.ServiceAddress).toList.any
            (fun c => c == ':') then
        "[" ++ (if node.ServiceAddress = "" then node.Address else node.ServiceAddress) ++ "]:0"
       else (if node.ServiceAddress = "" then node.Address else node.ServiceAddress) ++ ":0") ∧
    (parseServiceNodes d checkIfStore (.decoded [node]) name).1.map Group.Targets =
      (if confirmedBy (checkIfStore 0 (addrOf node)) then some [[(AddressLabel, addrOf node)]]
       else none) := by
  refine ⟨?_, ?_, ?_⟩
  · unfold addrOf
    by_cases h : node.ServiceAddress = "" <;> simp [h]
  · have h0 : Itoa 0 = "0" := by decide
    have e1 : ∀ s : String, s ++ ":" ++ "0" = s ++ ":0" := fun s => by
      rw [String.append_assoc]; rfl
    have e2 : ∀ s : String, "[" ++ s ++ "]:" ++ "0" = "[" ++ s ++ "]:0" := fun s => by
      rw [String.append_assoc ("[" ++ s)]; rfl
    unfold addrOf
    by_cases h : node.ServiceAddress = "" <;> simp [h, JoinHostPort, h0, e1, e2]
  · rw [parseServiceNodes_decoded_eq]
    unfold confirmedInstances
    rw [confirmedFrom_cons, confirmedFrom_nil]
    by_cases h : confirmedBy (checkIfStore 0 (addrOf node)) = true <;> simp [h, targetOf]

/-- Claim C7: the configured tag separator is stored and not used. With the separator
`;` configured, the tags label of the group built from an instance with the
tags `a` and `b` is `,a,b,`. -/
theorem tags_label_ignores_separator :
    ∃ d, NewDiscovery { Address := "127.0.0.1:8500", TagSeparator := ";", RefreshInterval := 30 }
        = .ok d ∧
      d.tagSeparator = ";" ∧
      (parseServiceNodes d probeAll (.decoded [nodeA]) "svc-a").1.map
        (fun g => g.Labels.get? tagsLabel) = some (some ",a,b,") :=
  ⟨_, rfl, rfl, by decide⟩

/-- Claim C8, as stated, fails: a configuration without `refresh_interval` is accepted and
gives a discoverer whose interval is 0. -/
theorem refresh_interval_counterexample :
    ¬ (∀ conf d, NewDiscovery conf = .ok d → 1 ≤ d.refreshInterval) := by
  intro h
  exact absurd (h { Address := "127.0.0.1:8500" } _ rfl) (by decide)

/-- Claim C8, amended. `NewDiscovery` returns a discoverer for every configuration, never
an error, and the interval of the discoverer is the configured
`refresh_interval` unchanged; it is at least 1 exactly when the configured
value is. -/
theorem NewDiscovery_refreshInterval (conf : ConsulSDConfig) :
    ∃ d, NewDiscovery conf = .ok d ∧ d.refreshInterval = conf.RefreshInterval ∧
      (1 ≤ d.refreshInterval ↔ 1 ≤ conf.RefreshInterval) :=
  ⟨_, rfl, rfl, Iff.rfl⟩


/-! ## Run -/

/-- An iteration whose services list is not decoded sends nothing and leaves the
discoverer as it was. -/
theorem runIteration_of_list_failure (d : Discovery) (p : Poll)
    (h : ∀ srvs, p.getServices ≠ .ok (.decoded srvs)) : runIteration d p = (d, none) := by
  unfold runIteration
  cases hs : p.getServices with
  | error e => rfl
  | ok body =>
    cases body with
    | unreadable e => rfl
    | malformed e => rfl
    | decoded srvs => exact absurd hs (h srvs)

theorem runIteration_no_consul (d : Discovery) (p : Poll) (h : "consul" ∉ d.oldSourceList) :
    "consul" ∉ (runIteration d p).1.oldSourceList ∧
    ∀ batch, (runIteration d p).2 = some batch → ∀ g ∈ batch, g.Source ≠ "consul" := by
  by_cases hs : ∃ srvs, p.getServices = .ok (.decoded srvs)
  · obtain ⟨srvs, hs⟩ := hs
    obtain ⟨R, new, hrun, _, hnew, _, hR⟩ := runIteration_batch d p srvs hs
    rw [hrun]
    constructor
    · intro hc
      obtain ⟨g, hg, hsrc⟩ := List.mem_map.mp ((hnew _).mp hc)
      exact (hR g hg).1 hsrc
    · intro batch hb g hg
      simp only [Option.some.injEq] at hb
      subst hb
      rcases List.mem_append.mp hg with h' | h'
      · exact (hR g h').1
      · obtain ⟨key, hkey, rfl⟩ := List.mem_map.mp h'
        intro hc
        have hkey' : key ∈ d.oldSourceList := (List.mem_filter.mp hkey).1
        simp only [tombstone] at hc
        exact h (hc ▸ hkey')
  · rw [runIteration_of_list_failure d p (fun srvs hc => hs ⟨srvs, hc⟩)]
    exact ⟨h, fun batch hb => by simp at hb⟩

theorem runPolls_no_consul (polls : List Poll) (d : Discovery) (h : "consul" ∉ d.oldSourceList) :
    "consul" ∉ (runPolls d polls).1.oldSourceList ∧
    ∀ batch ∈ (runPolls d polls).2, ∀ g ∈ batch, g.Source ≠ "consul" := by
  induction polls generalizing d with
  | nil => exact ⟨h, fun batch hb => by simp [runPolls] at hb⟩
  | cons p rest ih =>
    obtain ⟨h1, h2⟩ := runIteration_no_consul d p h
    obtain ⟨h3, h4⟩ := ih (runIteration d p).1 h1
    rw [runPolls]
    cases hb : (runIteration d p).2 with
    | none => exact ⟨h3, h4⟩
    | some batch =>
      refine ⟨h3, ?_⟩
      intro b hmem
      rcases List.mem_cons.mp hmem with h' | h'
      · subst h'; exact h2 b hb
      · exact h4 b h'

/-- Claim C9. From the discoverer that `NewDiscovery` creates, and for every finite
sequence of polls, whatever their services lists hold: `consul` is not in
`oldSourceList` after the sequence, and no group of a batch sent during it,
regular or tombstone, has the source `consul`. -/
theorem consul_never_published (conf : ConsulSDConfig) (polls : List Poll) :
    ∃ d, NewDiscovery conf = .ok d ∧
      "consul" ∉ (runPolls d polls).1.oldSourceList ∧
      ∀ batch ∈ (runPolls d polls).2, ∀ g ∈ batch, g.Source ≠ "consul" :=
  ⟨_, rfl, runPolls_no_consul polls _ (by simp)⟩

/-- Claim C10. For every prior source list and every poll whose services list is
decoded (their keys being distinct, as the keys of a map are), the batch of
the iteration has pairwise distinct sources; no source has a regular group and
a tombstone; and every group has targets, or has neither targets nor labels. -/
theorem batch_sources_unique (d : Discovery) (p : Poll) (srvs : List (String × List String))
    (hs : p.getServices = .ok (.decoded srvs)) (hnames : (srvs.map Prod.fst).Nodup)
    (hold : d.oldSourceList.Nodup) :
    ∃ batch, (runIteration d p).2 = some batch ∧
      (batch.map Group.Source).Nodup ∧
      (∀ g ∈ batch, ∀ g' ∈ batch, g.Targets ≠ [] → g'.Targets = [] → g.Source ≠ g'.Source) ∧
      ∀ g ∈ batch, g.Targets ≠ [] ∨ (g.Targets = [] ∧ g.Labels = []) := by
  obtain ⟨R, new, hrun, _, hnew, hsub, hR⟩ := runIteration_batch d p srvs hs
  have hnodup : ((R ++ (d.oldSourceList.filter (fun key => !new.contains key)).map tombstone).map
      Group.Source).Nodup := by
    rw [List.map_append, List.map_map]
    have hid : (Group.Source ∘ tombstone) = id := by funext key; rfl
    rw [hid, List.map_id]
    refine List.Nodup.append (hnames.sublist hsub) (hold.filter _) ?_
    intro x hx hx'
    have h1 : x ∈ new := (hnew x).mpr hx
    have h2 := (List.mem_filter.mp hx').2
    simp [h1] at h2
  have hclass : ∀ g ∈ R ++ (d.oldSourceList.filter (fun key => !new.contains key)).map tombstone,
      g.Targets ≠ [] ∨ (g.Targets = [] ∧ g.Labels = []) := by
    intro g hg
    rcases List.mem_append.mp hg with h | h
    · exact Or.inl (hR g h).2.1
    · obtain ⟨key, _, rfl⟩ := List.mem_map.mp h
      exact Or.inr ⟨rfl, rfl⟩
  refine ⟨_, by rw [hrun], hnodup, ?_, hclass⟩
  intro g hg g' hg' ht ht' hsrc
  have := List.inj_on_of_nodup_map hnodup hg hg' hsrc
  exact ht (this ▸ ht')

/-- Claim C10 at a concrete input: the discoverer that published `svc-b`
meets a poll that lists `consul` and `svc-a`. -/
theorem batch_sources_unique_witness :
    ∃ batch, (runIteration discoveryA pollA).2 = some batch ∧
      (batch.map Group.Source).Nodup ∧
      (∀ g ∈ batch, ∀ g' ∈ batch, g.Targets ≠ [] → g'.Targets = [] → g.Source ≠ g'.Source) ∧
      ∀ g ∈ batch, g.Targets ≠ [] ∨ (g.Targets = [] ∧ g.Labels = []) :=
  batch_sources_unique discoveryA pollA [("consul", []), ("svc-a", ["a", "b"])] rfl
    (by decide) (by decide)

/-- Claim C1. Two consecutive iterations whose polls succeed both send a batch. A
source that has a regular group in the first batch and no capability-confirmed
instance in the second poll has exactly one group in the second batch, and
that group has no targets and no labels. A group without targets in the second
batch has a source that has a regular group in the first batch and none in the
second. -/
theorem tombstone_synthesis (d : Discovery) (pN pN1 : Poll)
    (hN : pN.succeeds) (hN1 : pN1.succeeds) :
    ∃ batchN batchN1,
      (runIteration d pN).2 = some batchN ∧
      (runIteration (runIteration d pN).1 pN1).2 = some batchN1 ∧
      (∀ s, (∃ g ∈ batchN, g.Source = s ∧ g.Targets ≠ []) → pN1.confirmedOf s = [] →
        batchN1.filter (fun g => g.Source == s) = [{ Source := s, Targets := [], Labels := [] }]) ∧
      (∀ g ∈ batchN1, g.Targets = [] →
        (∃ g' ∈ batchN, g'.Source = g.Source ∧ g'.Targets ≠ []) ∧
        ¬ ∃ g' ∈ batchN1, g'.Source = g.Source ∧ g'.Targets ≠ []) := by
  obtain ⟨srvs, hs, _⟩ := hN
  obtain ⟨srvs1, hs1, _⟩ := hN1
  obtain ⟨R, new, hrun, hnd, hnew, _, hR⟩ := runIteration_batch d pN srvs hs
  obtain ⟨R1, new1, hrun1, _, hnew1, _, hR1⟩ :=
    runIteration_batch (runIteration d pN).1 pN1 srvs1 hs1
  have hold : (runIteration d pN).1.oldSourceList = new := by rw [hrun]
  rw [hold] at hrun1
  have hregN : ∀ s, (∃ g ∈ R ++ (d.oldSourceList.filter
      (fun key => !new.contains key)).map tombstone, g.Source = s ∧ g.Targets ≠ []) ↔ s ∈ new := by
    intro s
    rw [hnew]
    constructor
    · rintro ⟨g, hg, hsrc, ht⟩
      rcases List.mem_append.mp hg with h | h
      · exact List.mem_map.mpr ⟨g, h, hsrc⟩
      · obtain ⟨key, _, rfl⟩ := List.mem_map.mp h
        exact absurd rfl ht
    · intro h
      obtain ⟨g, hg, hsrc⟩ := List.mem_map.mp h
      exact ⟨g, List.mem_append_left _ hg, hsrc, (hR g hg).2.1⟩
  refine ⟨_, _, by rw [hrun], by rw [hrun1], ?_, ?_⟩
  · intro s hs' hconf
    have hsnew : s ∈ new := (hregN s).mp hs'
    have hsnew1 : s ∉ new1 := by
      intro hc
      obtain ⟨g, hg, hsrc⟩ := List.mem_map.mp ((hnew1 s).mp hc)
      exact (hR1 g hg).2.2 (hsrc ▸ hconf)
    have hR1s : R1.filter (fun g => g.Source == s) = [] := by
      rw [List.filter_eq_nil_iff]
      intro g hg hgs
      have : g.Source = s := by simpa using hgs
      exact hsnew1 ((hnew1 s).mpr (List.mem_map.mpr ⟨g, hg, this⟩))
    have hfil : (new.filter (fun key => !new1.contains key)).filter (fun x => x == s) = [s] :=
      filter_beq_of_nodup _ s (hnd.filter _)
        (List.mem_filter.mpr ⟨hsnew, by simpa using hsnew1⟩)
    rw [List.filter_append, hR1s, List.nil_append, List.filter_map]
    have hcomp : ((fun g : Group => g.Source == s) ∘ tombstone) = (fun x => x == s) := by
      funext key; rfl
    rw [hcomp, hfil]
    rfl
  · intro g hg ht
    rcases List.mem_append.mp hg with h | h
    · exact absurd ht (hR1 g h).2.1
    · obtain ⟨key, hkey, rfl⟩ := List.mem_map.mp h
      obtain ⟨hk1, hk2⟩ := List.mem_filter.mp hkey
      have hk2' : key ∉ new1 := by simpa using hk2
      refine ⟨(hregN key).mpr hk1, ?_⟩
      rintro ⟨g', hg', hsrc, ht'⟩
      rcases List.mem_append.mp hg' with h' | h'
      · exact hk2' ((hnew1 key).mpr (List.mem_map.mpr ⟨g', h', hsrc⟩))
      · obtain ⟨key', _, rfl⟩ := List.mem_map.mp h'
        exact absurd rfl ht'

theorem pollA_succeeds : pollA.succeeds := by
  refine ⟨[("consul", []), ("svc-a", ["a", "b"])], rfl, ?_⟩
  intro name hmem hne
  simp only [List.map_cons, List.map_nil, List.mem_cons, List.mem_singleton,
    List.not_mem_nil, or_false] at hmem
  rcases hmem with h | h
  · exact absurd h hne
  · subst h; exact ⟨[nodeA], rfl⟩

theorem pollGone_succeeds : pollGone.succeeds := by
  refine ⟨[("consul", [])], rfl, ?_⟩
  intro name hmem hne
  simp only [List.map_cons, List.map_nil, List.mem_singleton] at hmem
  exact absurd hmem hne

/-- Claim C1 at a concrete input: `svc-a` is published by the first poll
and gone from the services list of the second. -/
theorem tombstone_synthesis_witness :
    ∃ batchN batchN1,
      (runIteration discoveryA pollA).2 = some batchN ∧
      (runIteration (runIteration discoveryA pollA).1 pollGone).2 = some batchN1 ∧
      (∀ s, (∃ g ∈ batchN, g.Source = s ∧ g.Targets ≠ []) → pollGone.confirmedOf s = [] →
        batchN1.filter (fun g => g.Source == s) = [{ Source := s, Targets := [], Labels := [] }]) ∧
      (∀ g ∈ batchN1, g.Targets = [] →
        (∃ g' ∈ batchN, g'.Source = g.Source ∧ g'.Targets ≠ []) ∧
        ¬ ∃ g' ∈ batchN1, g'.Source = g.Source ∧ g'.Targets ≠ []) :=
  tombstone_synthesis discoveryA pollA pollGone pollA_succeeds pollGone_succeeds

/-- Claim C2: an iteration left by `break` sends a batch. The discoverer published
`svc-b`; the poll lists `svc-a` and `svc-b`, and the request for the instances
of `svc-a` fails. The batch sent holds a tombstone for `svc-b`. -/
theorem aborted_iteration_sends_batch :
    pollFail.getService "svc-a" = .error "timeout" ∧
    (runIteration discoveryA pollFail).2 = some [{ Source := "svc-b", Targets := [], Labels := [] }] := by
  exact ⟨rfl, by decide⟩

/-- Claim C3: an iteration left by `break` replaces the source list. The discoverer
published `svc-b`; the poll lists `svc-a` and `svc-b`, and the request for the
instances of `svc-a` fails. The source list is empty afterwards. -/
theorem aborted_iteration_replaces_state :
    pollFail.getService "svc-a" = .error "timeout" ∧
    discoveryA.oldSourceList = ["svc-b"] ∧
    (runIteration discoveryA pollFail).1.oldSourceList = [] := by
  exact ⟨rfl, rfl, by decide⟩

end Consul
